import Mathlib

/-!
Shallow embedding of the event dispatcher implemented in
`src/src/event-bus/src/lib/event-bus.tsx` (class `EventBus`).

Modelling choices, all taken from the source code:
* Event keys and callback identities are modelled as `Nat` (keys are opaque
  comparable identifiers; callbacks are compared by reference identity, so an
  abstract identity is all the semantics uses).
* A listener's bound context is `Option Nat`; `none` models the JavaScript
  `null` default used by `on`, `once` and `off`.
* The registry `Map<EventKey, Set<Listener>>` is an association list
  `List (Nat × List Listener)`: a JavaScript `Map` iterates keys in insertion
  order, and a `Set` of freshly allocated listener objects iterates records in
  insertion order, so each `on`/`once` call appends a new record even when an
  identical record is already present.
* Whether a callback throws when invoked is the only effect of a callback the
  dispatcher's own state transitions depend on, so it is modelled by a
  behaviour function `CrashFn` giving, for each (callback, context, payload)
  triple, whether that invocation raises.  `emit` catches such an error per
  listener and continues, which is why the Lean `emit` is a total function.
* `emit` returns, besides the updated registry, the trace of invocations it
  performed, in order; each trace entry records the callback, the receiver
  context it was bound to, and the payload it was passed.
-/

/-- Translation of the `Listener` interface of the source: one subscription
record with a callback, a bound context (`none` = JavaScript `null`) and the
one-shot flag. -/
structure Listener where
  callback : Nat
  context : Option Nat
  once : Bool
deriving DecidableEq, Repr

/-- One observed callback invocation during `emit`: which callback was called,
with which receiver context, and which payload it received. -/
structure Invocation where
  callback : Nat
  context : Option Nat
  payload : Nat
deriving DecidableEq, Repr

/-- Behaviour of the callbacks: `cr cb ctx p = true` means invoking callback
`cb` with receiver `ctx` and payload `p` throws an error. -/
abbrev CrashFn := Nat → Option Nat → Nat → Bool

/-- The registry `Map<EventKey, Set<Listener>>`, as an insertion-ordered
association list. -/
abbrev Bus := List (Nat × List Listener)

namespace EventBus

/-- Translation of `this.listeners.get(event)`: the listener collection for a
key, `none` when the key is absent. -/
def getListeners (b : Bus) (k : Nat) : Option (List Listener) :=
  (b.find? fun q => q.1 == k).map fun q => q.2

/-- Translation of an in-place update of the set stored under key `k` (the
source mutates the `Set` object held by the `Map`, leaving key order
unchanged). -/
def setListeners (b : Bus) (k : Nat) (ls : List Listener) : Bus :=
  b.map fun q => if q.1 == k then (k, ls) else q

/-- Translation of `this.listeners.delete(event)`. -/
def deleteKey (b : Bus) (k : Nat) : Bus :=
  b.filter fun q => !(q.1 == k)

/-- Translation of `EventBus.on` (event-bus.tsx lines 37-67), state part:
creates the key's collection if absent and adds a fresh `once: false` record.
The returned unsubscribe closure is translated separately as `unsubscribe`. -/
def «on» (b : Bus) (k cb : Nat) (ctx : Option Nat) : Bus :=
  match getListeners b k with
  | some ls => setListeners b k (ls ++ [⟨cb, ctx, false⟩])
  | none => b ++ [(k, [⟨cb, ctx, false⟩])]

/-- Translation of `EventBus.once` (lines 76-105), state part: identical to
`on` except the record is marked `once: true`. -/
def once (b : Bus) (k cb : Nat) (ctx : Option Nat) : Bus :=
  match getListeners b k with
  | some ls => setListeners b k (ls ++ [⟨cb, ctx, true⟩])
  | none => b ++ [(k, [⟨cb, ctx, true⟩])]

/-- Translation of the closure returned by both `on` (lines 52-67) and `once`
(lines 91-105); the two closure bodies in the source are textually identical:
delete every record whose callback and context both match, then prune the key
if its collection became empty. -/
def unsubscribe (b : Bus) (k cb : Nat) (ctx : Option Nat) : Bus :=
  match getListeners b k with
  | none => b
  | some ls =>
    let remaining := ls.filter fun l => !(l.callback == cb && l.context == ctx)
    if remaining.isEmpty then deleteKey b k else setListeners b k remaining

/-- Boolean membership test on listener records, used to translate
`toRemove.forEach((l) => eventListeners.delete(l))`. -/
def memOf (l : Listener) : List Listener → Bool
  | [] => false
  | x :: xs => if l = x then true else memOf l xs

/-- Translation of the `eventListeners.forEach` loop of `EventBus.emit`
(lines 120-133): for each listener, the callback is invoked (first component:
the trace, in iteration order, crashing or not, since the `catch` swallows the
error); a listener is appended to `toRemove` (second component) only when it
is `once` and its callback returned without throwing, because in the source
the `toRemove.push(listener)` sits inside the `try` after the call. -/
def emitLoop (cr : CrashFn) (p : Nat) : List Listener → List Invocation × List Listener
  | [] => ([], [])
  | l :: rest =>
      (⟨l.callback, l.context, p⟩ :: (emitLoop cr p rest).1,
        if l.once && !(cr l.callback l.context p)
        then l :: (emitLoop cr p rest).2
        else (emitLoop cr p rest).2)

/-- Translation of `EventBus.emit` (lines 113-144): early return when the key
is absent; otherwise run the delivery loop, afterwards delete the collected
one-time listeners and prune the key if the collection became empty.  Returns
the updated registry together with the trace of invocations. -/
def emit (cr : CrashFn) (b : Bus) (k p : Nat) : Bus × List Invocation :=
  match getListeners b k with
  | none => (b, [])
  | some ls =>
    let tr := (emitLoop cr p ls).1
    let toRemove := (emitLoop cr p ls).2
    let remaining := ls.filter fun l => !(memOf l toRemove)
    if remaining.isEmpty then (deleteKey b k, tr) else (setListeners b k remaining, tr)

/-- Translation of `EventBus.off` (lines 152-180): no-op when the key is
absent; with no callback, the key is deleted outright; with a callback, every
record whose callback matches and whose context matches (where a `null`,
i.e. `none`, context argument matches any stored context) is removed, and the
key is pruned if its collection became empty. -/
def off (b : Bus) (k : Nat) (cb : Option Nat) (ctx : Option Nat) : Bus :=
  match getListeners b k with
  | none => b
  | some ls =>
    match cb with
    | none => deleteKey b k
    | some c =>
      let remaining := ls.filter fun l => !(l.callback == c && (ctx.isNone || l.context == ctx))
      if remaining.isEmpty then deleteKey b k else setListeners b k remaining

/-- Translation of `EventBus.clear` (lines 186-192). -/
def clear (b : Bus) (k : Option Nat) : Bus :=
  match k with
  | some key => deleteKey b key
  | none => []

/-- Translation of `EventBus.listenerCount` (lines 199-202). -/
def listenerCount (b : Bus) (k : Nat) : Nat :=
  match getListeners b k with
  | some ls => ls.length
  | none => 0

/-- Translation of `EventBus.hasListeners` (lines 209-211). -/
def hasListeners (b : Bus) (k : Nat) : Bool :=
  decide (listenerCount b k > 0)

/-- Translation of `EventBus.eventNames` (lines 217-219). -/
def eventNames (b : Bus) : List Nat :=
  b.map fun q => q.1

/-- The operations an external caller can perform on a dispatcher instance:
subscribing (`on`, `once`), invoking a returned unsubscribe handle (`unsub`),
`off`, `clear`, and `emit`. -/
inductive Op where
  | «on» (k cb : Nat) (ctx : Option Nat)
  | once (k cb : Nat) (ctx : Option Nat)
  | unsub (k cb : Nat) (ctx : Option Nat)
  | off (k : Nat) (cb : Option Nat) (ctx : Option Nat)
  | clear (k : Option Nat)
  | emit (k p : Nat)
deriving Repr

/-- State transition of one operation. -/
def applyOp (cr : CrashFn) (b : Bus) : Op → Bus
  | .«on» k cb ctx => EventBus.«on» b k cb ctx
  | .once k cb ctx => EventBus.once b k cb ctx
  | .unsub k cb ctx => unsubscribe b k cb ctx
  | .off k cb ctx => EventBus.off b k cb ctx
  | .clear k => EventBus.clear b k
  | .emit k p => (EventBus.emit cr b k p).1

/-- The state reached from a freshly constructed dispatcher (empty registry)
by a sequence of operations. -/
def run (cr : CrashFn) (ops : List Op) : Bus :=
  ops.foldl (applyOp cr) []

/-- Registry well-formedness: no key maps to an empty collection. -/
def wf (b : Bus) : Prop := ∀ q ∈ b, q.2 ≠ []

/-- Registry keys are pairwise distinct (as maintained by a `Map`). -/
def keysNodup (b : Bus) : Prop := (eventNames b).Nodup

end EventBus

section Sanity

example : EventBus.«on» [] 0 5 none = [(0, [⟨5, none, false⟩])] := by decide

example :
    (EventBus.emit (fun _ _ _ => false) (EventBus.«on» [] 0 5 none) 0 7).2
      = [⟨5, none, 7⟩] := by decide

example :
    (EventBus.emit (fun _ _ _ => false) (EventBus.once [] 0 5 none) 0 7).1 = [] := by
  decide

example :
    (EventBus.emit (fun _ _ _ => true) (EventBus.once [] 0 5 none) 0 7).1
      = [(0, [⟨5, none, true⟩])] := by decide

end Sanity

namespace EventBus

theorem memOf_eq_true_iff (l : Listener) (xs : List Listener) :
    memOf l xs = true ↔ l ∈ xs := by
  induction xs with
  | nil => simp [memOf]
  | cons x xs ih =>
    by_cases h : l = x
    · simp [memOf, h]
    · simp [memOf, h, ih]

theorem getListeners_eq_none_iff (b : Bus) (k : Nat) :
    getListeners b k = none ↔ k ∉ eventNames b := by
  simp only [getListeners, eventNames, Option.map_eq_none', List.find?_eq_none,
    List.mem_map, beq_iff_eq]
  constructor
  · rintro h ⟨q, hq, rfl⟩
    exact h q hq rfl
  · intro h q hq hqk
    exact h ⟨q, hq, hqk⟩

theorem getListeners_deleteKey_self (b : Bus) (k : Nat) :
    getListeners (deleteKey b k) k = none := by
  simp only [getListeners, deleteKey, Option.map_eq_none', List.find?_eq_none]
  intro q hq
  have := (List.mem_filter.mp hq).2
  simp only [Bool.not_eq_eq_eq_not, Bool.not_true] at this
  simp [this]

theorem getListeners_cons_pos (q : Nat × List Listener) (b : Bus) (k : Nat)
    (hq : (q.1 == k) = true) :
    getListeners (q :: b) k = some q.2 := by
  unfold getListeners
  rw [@List.find?_cons_of_pos _ (fun q => q.1 == k) q b hq]
  rfl

theorem getListeners_cons_neg (q : Nat × List Listener) (b : Bus) (k : Nat)
    (hq : ¬((q.1 == k) = true)) :
    getListeners (q :: b) k = getListeners b k := by
  unfold getListeners
  rw [@List.find?_cons_of_neg _ (fun q => q.1 == k) q b hq]

theorem setListeners_cons (q : Nat × List Listener) (b : Bus) (k : Nat) (ls : List Listener) :
    setListeners (q :: b) k ls = (if q.1 == k then (k, ls) else q) :: setListeners b k ls := rfl

theorem getListeners_setListeners_self (b : Bus) (k : Nat) (ls ls2 : List Listener)
    (h : getListeners b k = some ls) :
    getListeners (setListeners b k ls2) k = some ls2 := by
  induction b with
  | nil => simp [getListeners] at h
  | cons q b ih =>
    by_cases hq : (q.1 == k) = true
    · rw [setListeners_cons, if_pos hq, getListeners_cons_pos _ _ _ (by simp)]
    · rw [setListeners_cons, if_neg hq, getListeners_cons_neg _ _ _ hq]
      rw [getListeners_cons_neg _ _ _ hq] at h
      exact ih h

theorem setListeners_setListeners (b : Bus) (k : Nat) (ls1 ls2 : List Listener) :
    setListeners (setListeners b k ls1) k ls2 = setListeners b k ls2 := by
  simp only [setListeners, List.map_map]
  apply List.map_congr_left
  intro q _
  by_cases hq : (q.1 == k) = true
  · simp [Function.comp, hq]
  · simp [Function.comp, hq]

theorem eventNames_setListeners (b : Bus) (k : Nat) (ls : List Listener) :
    eventNames (setListeners b k ls) = eventNames b := by
  simp only [eventNames, setListeners, List.map_map]
  apply List.map_congr_left
  intro q _
  by_cases hq : (q.1 == k) = true
  · simp [Function.comp, hq, beq_iff_eq.mp hq]
  · simp [Function.comp, hq]

theorem getListeners_append_of_none (b : Bus) (k : Nat) (ls : List Listener)
    (h : getListeners b k = none) :
    getListeners (b ++ [(k, ls)]) k = some ls := by
  induction b with
  | nil => exact getListeners_cons_pos _ _ _ (by simp)
  | cons q b ih =>
    have hq : ¬((q.1 == k) = true) := by
      intro hq
      rw [getListeners_cons_pos _ _ _ hq] at h
      exact Option.some_ne_none _ h
    rw [getListeners_cons_neg _ _ _ hq] at h
    rw [List.cons_append, getListeners_cons_neg _ _ _ hq]
    exact ih h

theorem getListeners_on (b : Bus) (k cb : Nat) (ctx : Option Nat) :
    getListeners («on» b k cb ctx) k
      = some ((getListeners b k).getD [] ++ [⟨cb, ctx, false⟩]) := by
  unfold «on»
  cases h : getListeners b k with
  | some ls => simpa [h] using getListeners_setListeners_self b k ls _ h
  | none => simpa [h] using getListeners_append_of_none b k _ h

theorem getListeners_once (b : Bus) (k cb : Nat) (ctx : Option Nat) :
    getListeners (once b k cb ctx) k
      = some ((getListeners b k).getD [] ++ [⟨cb, ctx, true⟩]) := by
  unfold once
  cases h : getListeners b k with
  | some ls => simpa [h] using getListeners_setListeners_self b k ls _ h
  | none => simpa [h] using getListeners_append_of_none b k _ h

theorem emitLoop_fst (cr : CrashFn) (p : Nat) (ls : List Listener) :
    (emitLoop cr p ls).1 = ls.map fun l => ⟨l.callback, l.context, p⟩ := by
  induction ls with
  | nil => rfl
  | cons l rest ih => simp [emitLoop, ih]

theorem emitLoop_snd (cr : CrashFn) (p : Nat) (ls : List Listener) :
    (emitLoop cr p ls).2 = ls.filter fun l => l.once && !(cr l.callback l.context p) := by
  induction ls with
  | nil => rfl
  | cons l rest ih =>
    cases h : l.once && !(cr l.callback l.context p) <;>
      simp [emitLoop, List.filter_cons, h, ih]

/-- Keeping predicate of `emit`: a listener survives the post-delivery removal
pass unless it is `once` and its callback did not throw. -/
def survives (cr : CrashFn) (p : Nat) (l : Listener) : Bool :=
  !(l.once && !(cr l.callback l.context p))

theorem filter_memOf_emitLoop (cr : CrashFn) (p : Nat) (ls : List Listener) :
    (ls.filter fun l => !(memOf l (emitLoop cr p ls).2)) = ls.filter (survives cr p) := by
  rw [emitLoop_snd]
  apply List.filter_congr
  intro l hl
  have hmem : memOf l (ls.filter fun l2 => l2.once && !(cr l2.callback l2.context p))
      = (l.once && !(cr l.callback l.context p)) := by
    cases h : l.once && !(cr l.callback l.context p) with
    | true =>
      exact (memOf_eq_true_iff _ _).mpr (List.mem_filter.mpr ⟨hl, h⟩)
    | false =>
      cases h2 : memOf l (ls.filter fun l2 => l2.once && !(cr l2.callback l2.context p)) with
      | false => rfl
      | true =>
        have := (List.mem_filter.mp ((memOf_eq_true_iff _ _).mp h2)).2
        rw [h] at this
        exact absurd this (by simp)
  simp [survives, hmem]

theorem emit_snd (cr : CrashFn) (b : Bus) (k p : Nat) :
    (emit cr b k p).2 = ((getListeners b k).getD []).map fun l => ⟨l.callback, l.context, p⟩ := by
  unfold emit
  cases h : getListeners b k with
  | none => simp
  | some ls =>
    simp only [Option.getD_some]
    split <;> simp [emitLoop_fst]

theorem emit_fst (cr : CrashFn) (b : Bus) (k p : Nat) (ls : List Listener)
    (h : getListeners b k = some ls) :
    (emit cr b k p).1 =
      if (ls.filter (survives cr p)).isEmpty then deleteKey b k
      else setListeners b k (ls.filter (survives cr p)) := by
  simp only [emit, h, filter_memOf_emitLoop]
  split <;> rfl

end EventBus

namespace EventBus

theorem ne_nil_of_isEmpty_eq_false {ls : List Listener} (h : ls.isEmpty = false) :
    ls ≠ [] := by
  intro hnil
  subst hnil
  simp at h

theorem wf_deleteKey (b : Bus) (k : Nat) (h : wf b) : wf (deleteKey b k) := by
  intro q hq
  exact h q (List.mem_of_mem_filter hq)

theorem wf_setListeners (b : Bus) (k : Nat) (ls : List Listener) (h : wf b)
    (hls : ls ≠ []) : wf (setListeners b k ls) := by
  intro q hq
  simp only [setListeners, List.mem_map] at hq
  obtain ⟨q0, hq0, rfl⟩ := hq
  split
  · simpa using hls
  · exact h q0 hq0

theorem wf_on (b : Bus) (k cb : Nat) (ctx : Option Nat) (h : wf b) :
    wf («on» b k cb ctx) := by
  unfold «on»
  cases hg : getListeners b k with
  | some ls => exact wf_setListeners b k _ h (by simp)
  | none =>
    intro q hq
    rcases List.mem_append.mp hq with h1 | h1
    · exact h q h1
    · simp only [List.mem_singleton] at h1
      subst h1
      simp

theorem wf_once (b : Bus) (k cb : Nat) (ctx : Option Nat) (h : wf b) :
    wf (once b k cb ctx) := by
  unfold once
  cases hg : getListeners b k with
  | some ls => exact wf_setListeners b k _ h (by simp)
  | none =>
    intro q hq
    rcases List.mem_append.mp hq with h1 | h1
    · exact h q h1
    · simp only [List.mem_singleton] at h1
      subst h1
      simp

theorem wf_unsubscribe (b : Bus) (k cb : Nat) (ctx : Option Nat) (h : wf b) :
    wf (unsubscribe b k cb ctx) := by
  unfold unsubscribe
  cases hg : getListeners b k with
  | none => exact h
  | some ls =>
    simp only
    split <;> rename_i hemp
    · exact wf_deleteKey b k h
    · exact wf_setListeners b k _ h
        (ne_nil_of_isEmpty_eq_false (Bool.eq_false_iff.mpr hemp))

theorem wf_off (b : Bus) (k : Nat) (cb ctx : Option Nat) (h : wf b) :
    wf (off b k cb ctx) := by
  unfold off
  cases hg : getListeners b k with
  | none => exact h
  | some ls =>
    cases cb with
    | none => exact wf_deleteKey b k h
    | some c =>
      simp only
      split <;> rename_i hemp
      · exact wf_deleteKey b k h
      · exact wf_setListeners b k _ h
          (ne_nil_of_isEmpty_eq_false (Bool.eq_false_iff.mpr hemp))

theorem wf_clear (b : Bus) (k : Option Nat) (h : wf b) : wf (clear b k) := by
  unfold clear
  cases k with
  | some key => exact wf_deleteKey b key h
  | none => intro q hq; exact absurd hq (List.not_mem_nil q)

theorem wf_emit_fst (cr : CrashFn) (b : Bus) (k p : Nat) (h : wf b) :
    wf (emit cr b k p).1 := by
  cases hg : getListeners b k with
  | none =>
    unfold emit
    rw [hg]
    exact h
  | some ls =>
    rw [emit_fst cr b k p ls hg]
    split <;> rename_i hemp
    · exact wf_deleteKey b k h
    · exact wf_setListeners b k _ h
        (ne_nil_of_isEmpty_eq_false (Bool.eq_false_iff.mpr hemp))

theorem wf_applyOp (cr : CrashFn) (b : Bus) (op : Op) (h : wf b) :
    wf (applyOp cr b op) := by
  cases op with
  | «on» k cb ctx => exact wf_on b k cb ctx h
  | once k cb ctx => exact wf_once b k cb ctx h
  | unsub k cb ctx => exact wf_unsubscribe b k cb ctx h
  | off k cb ctx => exact wf_off b k cb ctx h
  | clear k => exact wf_clear b k h
  | emit k p => exact wf_emit_fst cr b k p h

theorem wf_run (cr : CrashFn) (ops : List Op) : wf (run cr ops) := by
  suffices hgen : ∀ b, wf b → wf (ops.foldl (applyOp cr) b) by
    exact hgen [] (fun q hq => absurd hq (List.not_mem_nil q))
  induction ops with
  | nil => intro b hb; exact hb
  | cons op ops ih =>
    intro b hb
    exact ih (applyOp cr b op) (wf_applyOp cr b op hb)

theorem keysNodup_deleteKey (b : Bus) (k : Nat) (h : keysNodup b) :
    keysNodup (deleteKey b k) := by
  exact List.Nodup.sublist (List.Sublist.map _ (List.filter_sublist b)) h

theorem keysNodup_setListeners (b : Bus) (k : Nat) (ls : List Listener)
    (h : keysNodup b) : keysNodup (setListeners b k ls) := by
  unfold keysNodup
  rw [eventNames_setListeners]
  exact h

theorem keysNodup_append_of_none (b : Bus) (k : Nat) (ls : List Listener)
    (h : keysNodup b) (hg : getListeners b k = none) :
    keysNodup (b ++ [(k, ls)]) := by
  unfold keysNodup eventNames
  rw [List.map_append]
  rw [List.nodup_append]
  refine ⟨h, by simp, ?_⟩
  intro x hx hx2
  simp only [List.map_cons, List.map_nil, List.mem_singleton] at hx2
  subst hx2
  exact (getListeners_eq_none_iff b x).mp hg hx

theorem keysNodup_on (b : Bus) (k cb : Nat) (ctx : Option Nat) (h : keysNodup b) :
    keysNodup («on» b k cb ctx) := by
  unfold «on»
  cases hg : getListeners b k with
  | some ls => exact keysNodup_setListeners b k _ h
  | none => exact keysNodup_append_of_none b k _ h hg

theorem keysNodup_once (b : Bus) (k cb : Nat) (ctx : Option Nat) (h : keysNodup b) :
    keysNodup (once b k cb ctx) := by
  unfold once
  cases hg : getListeners b k with
  | some ls => exact keysNodup_setListeners b k _ h
  | none => exact keysNodup_append_of_none b k _ h hg

theorem keysNodup_unsubscribe (b : Bus) (k cb : Nat) (ctx : Option Nat)
    (h : keysNodup b) : keysNodup (unsubscribe b k cb ctx) := by
  unfold unsubscribe
  cases hg : getListeners b k with
  | none => exact h
  | some ls =>
    simp only
    split
    · exact keysNodup_deleteKey b k h
    · exact keysNodup_setListeners b k _ h

theorem keysNodup_off (b : Bus) (k : Nat) (cb ctx : Option Nat) (h : keysNodup b) :
    keysNodup (off b k cb ctx) := by
  unfold off
  cases hg : getListeners b k with
  | none => exact h
  | some ls =>
    cases cb with
    | none => exact keysNodup_deleteKey b k h
    | some c =>
      simp only
      split
      · exact keysNodup_deleteKey b k h
      · exact keysNodup_setListeners b k _ h

theorem keysNodup_clear (b : Bus) (k : Option Nat) (h : keysNodup b) :
    keysNodup (clear b k) := by
  unfold clear
  cases k with
  | some key => exact keysNodup_deleteKey b key h
  | none => simp [keysNodup, eventNames]

theorem keysNodup_emit_fst (cr : CrashFn) (b : Bus) (k p : Nat) (h : keysNodup b) :
    keysNodup (emit cr b k p).1 := by
  cases hg : getListeners b k with
  | none =>
    unfold emit
    rw [hg]
    exact h
  | some ls =>
    rw [emit_fst cr b k p ls hg]
    split
    · exact keysNodup_deleteKey b k h
    · exact keysNodup_setListeners b k _ h

theorem keysNodup_applyOp (cr : CrashFn) (b : Bus) (op : Op) (h : keysNodup b) :
    keysNodup (applyOp cr b op) := by
  cases op with
  | «on» k cb ctx => exact keysNodup_on b k cb ctx h
  | once k cb ctx => exact keysNodup_once b k cb ctx h
  | unsub k cb ctx => exact keysNodup_unsubscribe b k cb ctx h
  | off k cb ctx => exact keysNodup_off b k cb ctx h
  | clear k => exact keysNodup_clear b k h
  | emit k p => exact keysNodup_emit_fst cr b k p h

theorem keysNodup_run (cr : CrashFn) (ops : List Op) : keysNodup (run cr ops) := by
  suffices hgen : ∀ b, keysNodup b → keysNodup (ops.foldl (applyOp cr) b) by
    exact hgen [] (by simp [keysNodup, eventNames])
  induction ops with
  | nil => intro b hb; exact hb
  | cons op ops ih =>
    intro b hb
    exact ih (applyOp cr b op) (keysNodup_applyOp cr b op hb)

theorem setListeners_eq_self (b : Bus) (k : Nat) (ls : List Listener)
    (hnd : keysNodup b) (h : getListeners b k = some ls) :
    setListeners b k ls = b := by
  induction b with
  | nil => rfl
  | cons q b ih =>
    have hnd1 : q.1 ∉ eventNames b ∧ (eventNames b).Nodup := by
      simpa [keysNodup, eventNames, List.nodup_cons] using hnd
    have hnd2 : keysNodup b := hnd1.2
    by_cases hq : (q.1 == k) = true
    · rw [getListeners_cons_pos q b k hq] at h
      have hqk : q.1 = k := beq_iff_eq.mp hq
      have hq2 : q.2 = ls := Option.some_injective _ h
      have habs : k ∉ eventNames b := by
        intro hk
        exact hnd1.1 (hqk.symm ▸ hk)
      have hbid : setListeners b k ls = b := by
        unfold setListeners
        apply List.map_congr_left ?_ |>.trans (List.map_id b)
        intro q2 hq2m
        have hne : ¬((q2.1 == k) = true) := by
          intro hc
          apply habs
          rw [← beq_iff_eq.mp hc]
          exact List.mem_map_of_mem (fun q3 => q3.1) hq2m
        simp only [if_neg hne, id]
      rw [setListeners_cons, if_pos hq, hbid]
      rw [← hqk, ← hq2]
    · rw [getListeners_cons_neg q b k hq] at h
      rw [setListeners_cons, if_neg hq, ih hnd2 h]

end EventBus

namespace EventBus

theorem unsubscribe_eq (b : Bus) (k cb : Nat) (ctx : Option Nat) (ls : List Listener)
    (h : getListeners b k = some ls) :
    unsubscribe b k cb ctx =
      if (ls.filter fun l => !(l.callback == cb && l.context == ctx)).isEmpty
      then deleteKey b k
      else setListeners b k (ls.filter fun l => !(l.callback == cb && l.context == ctx)) := by
  simp only [unsubscribe, h]

theorem off_some_eq (b : Bus) (k c : Nat) (ctx : Option Nat) (ls : List Listener)
    (h : getListeners b k = some ls) :
    off b k (some c) ctx =
      if (ls.filter fun l => !(l.callback == c && (ctx.isNone || l.context == ctx))).isEmpty
      then deleteKey b k
      else setListeners b k
        (ls.filter fun l => !(l.callback == c && (ctx.isNone || l.context == ctx))) := by
  simp only [off, h]

theorem mem_getD_filterPrune (b : Bus) (k : Nat) (ls : List Listener)
    (pred : Listener → Bool) (h : getListeners b k = some ls) (l : Listener) :
    l ∈ (getListeners
        (if (ls.filter pred).isEmpty then deleteKey b k
         else setListeners b k (ls.filter pred)) k).getD []
      ↔ l ∈ ls ∧ pred l = true := by
  split <;> rename_i hemp
  · rw [getListeners_deleteKey_self]
    simp only [Option.getD_none, List.not_mem_nil, false_iff]
    intro hc
    have : l ∈ ls.filter pred := List.mem_filter.mpr hc
    rw [List.isEmpty_iff.mp hemp] at this
    exact absurd this (List.not_mem_nil l)
  · rw [getListeners_setListeners_self b k ls _ h]
    simp only [Option.getD_some]
    exact List.mem_filter

theorem mem_getD_unsubscribe (b : Bus) (k cb : Nat) (ctx : Option Nat)
    (ls : List Listener) (h : getListeners b k = some ls) (l : Listener) :
    l ∈ (getListeners (unsubscribe b k cb ctx) k).getD []
      ↔ l ∈ ls ∧ (!(l.callback == cb && l.context == ctx)) = true := by
  rw [unsubscribe_eq b k cb ctx ls h]
  exact mem_getD_filterPrune b k ls _ h l

theorem mem_getD_off_some (b : Bus) (k c : Nat) (ctx : Option Nat)
    (ls : List Listener) (h : getListeners b k = some ls) (l : Listener) :
    l ∈ (getListeners (off b k (some c) ctx) k).getD []
      ↔ l ∈ ls ∧ (!(l.callback == c && (ctx.isNone || l.context == ctx))) = true := by
  rw [off_some_eq b k c ctx ls h]
  exact mem_getD_filterPrune b k ls _ h l

theorem mem_getD_emit_fst (cr : CrashFn) (b : Bus) (k p : Nat)
    (ls : List Listener) (h : getListeners b k = some ls) (l : Listener) :
    l ∈ (getListeners (emit cr b k p).1 k).getD []
      ↔ l ∈ ls ∧ survives cr p l = true := by
  rw [emit_fst cr b k p ls h]
  exact mem_getD_filterPrune b k ls _ h l

theorem hasListeners_iff_mem_eventNames (b : Bus) (k : Nat) (h : wf b) :
    hasListeners b k = true ↔ k ∈ eventNames b := by
  unfold hasListeners listenerCount
  constructor
  · intro hl
    cases hg : getListeners b k with
    | none => rw [hg] at hl; simp at hl
    | some ls =>
      obtain ⟨q, hfind, hq2⟩ : ∃ q, (b.find? fun q => q.1 == k) = some q ∧ q.2 = ls := by
        unfold getListeners at hg
        cases hf : b.find? fun q => q.1 == k with
        | none => rw [hf] at hg; simp at hg
        | some q =>
          rw [hf] at hg
          exact ⟨q, rfl, Option.some_injective _ hg⟩
      have hp :=
        @List.find?_some _ (fun q2 : Nat × List Listener => q2.1 == k) q b hfind
      have hqk : q.1 = k := beq_iff_eq.mp hp
      have hqmem : q ∈ b := List.mem_of_find?_eq_some hfind
      rw [← hqk]
      exact List.mem_map_of_mem (fun q2 => q2.1) hqmem
  · intro hk
    obtain ⟨q, hqmem, hqk⟩ := List.mem_map.mp hk
    have hsome : ∃ q2, (b.find? fun q3 => q3.1 == k) = some q2 := by
      rw [← Option.isSome_iff_exists]
      rw [List.find?_isSome]
      exact ⟨q, hqmem, beq_iff_eq.mpr hqk⟩
    obtain ⟨q2, hfind⟩ := hsome
    have hne : q2.2 ≠ [] := h q2 (List.mem_of_find?_eq_some hfind)
    have hg : getListeners b k = some q2.2 := by
      unfold getListeners
      rw [hfind]
      rfl
    rw [hg]
    simpa [Nat.pos_iff_ne_zero, List.length_eq_zero] using hne

end EventBus

/-- C1, counterexample to the claim as stated: on a fresh dispatcher,
`subscribeOnce(0, cb0)` followed by `emit(0, 1)` where `cb0` throws leaves the
once-record in the registry — it is not removed before the next emission. -/
theorem c1_counterexample :
    EventBus.getListeners
        (EventBus.emit (fun _ _ _ => true) (EventBus.once [] 0 0 none) 0 1).1 0
      = some [⟨0, none, true⟩] := by decide

/-- C1 (amended): after an `emit(k, p)` in which a once-listener was invoked,
its record is removed from the registry before the next emission, provided its
callback did not raise during that invocation.  (If the callback raised, the
source skips `toRemove.push`, so the record is retained — see
`c1_counterexample`.) -/
theorem c1_once_removed_unless_crash (cr : CrashFn) (b : Bus) (k p cb : Nat)
    (ctx : Option Nat) (hc : cr cb ctx p = false) :
    (⟨cb, ctx, true⟩ : Listener) ∉
      (EventBus.getListeners (EventBus.emit cr b k p).1 k).getD [] := by
  cases hg : EventBus.getListeners b k with
  | none =>
    unfold EventBus.emit
    rw [hg]
    simp [hg]
  | some ls =>
    intro hmem
    have hchar := (EventBus.mem_getD_emit_fst cr b k p ls hg _).mp hmem
    simp [EventBus.survives, hc] at hchar

/-- Witness for `c1_once_removed_unless_crash` at a concrete registry holding
a once-listener and a persistent listener. -/
theorem c1_once_removed_unless_crash_witness :
    (⟨0, none, true⟩ : Listener) ∉
      (EventBus.getListeners
        (EventBus.emit (fun _ _ _ => false)
          [(0, [⟨0, none, true⟩, ⟨1, none, false⟩])] 0 5).1 0).getD [] :=
  c1_once_removed_unless_crash (fun _ _ _ => false)
    [(0, [⟨0, none, true⟩, ⟨1, none, false⟩])] 0 5 0 none rfl

/-- C2: if the listener at position `i` throws during `emit(k, p)`, the error
is caught inside `emit` (the Lean `emit` is a total function, so the caller
never observes an exception) and the listener at any later position `j` is
still invoked during the same `emit` call, with the same payload. -/
theorem c2_crash_does_not_stop_delivery (cr : CrashFn) (b : Bus) (k p : Nat)
    (ls : List Listener) (h : EventBus.getListeners b k = some ls) (i j : Nat)
    (hij : i < j) (hj : j < ls.length)
    (hcrash : cr (ls.get ⟨i, Nat.lt_trans hij hj⟩).callback
        (ls.get ⟨i, Nat.lt_trans hij hj⟩).context p = true) :
    (EventBus.emit cr b k p).2.get? j
      = some ⟨(ls.get ⟨j, hj⟩).callback, (ls.get ⟨j, hj⟩).context, p⟩ := by
  rw [EventBus.emit_snd, h]
  simp only [Option.getD_some]
  rw [List.get?_map, List.get?_eq_get hj]
  rfl

/-- Witness for `c2_crash_does_not_stop_delivery`: callback 0 throws, callback
1 (registered after it) is still invoked with the payload. -/
theorem c2_crash_does_not_stop_delivery_witness :
    (EventBus.emit (fun cb _ _ => cb == 0)
        [(0, [⟨0, none, false⟩, ⟨1, none, false⟩])] 0 7).2.get? 1
      = some ⟨1, none, 7⟩ :=
  c2_crash_does_not_stop_delivery (fun cb _ _ => cb == 0)
    [(0, [⟨0, none, false⟩, ⟨1, none, false⟩])] 0 7
    [⟨0, none, false⟩, ⟨1, none, false⟩] rfl 0 1 (by decide) (by decide) rfl

/-- C3: `emit(k, p)` invokes every currently-registered listener of `k`
exactly once, in insertion order, passing the same payload `p` to each and
binding each record's stored context as the callback's receiver: the trace is
precisely the listener collection mapped to (callback, context, payload)
invocation records, in order. -/
theorem c3_delivery_in_order (cr : CrashFn) (b : Bus) (k p : Nat) :
    (EventBus.emit cr b k p).2
      = ((EventBus.getListeners b k).getD []).map
          fun l => ⟨l.callback, l.context, p⟩ :=
  EventBus.emit_snd cr b k p

/-- C4, counterexample to the claim as stated: for a once-subscription whose
callback throws, `emit(k, p1); emit(k, p2)` invokes the callback twice (the
second time with `p2`), not exactly once with `p1`. -/
theorem c4_counterexample :
    ((EventBus.emit (fun _ _ _ => true) (EventBus.once [] 0 0 none) 0 1).2
      ++ (EventBus.emit (fun _ _ _ => true)
            (EventBus.emit (fun _ _ _ => true) (EventBus.once [] 0 0 none) 0 1).1 0 2).2)
      = [⟨0, none, 1⟩, ⟨0, none, 2⟩] := by decide

/-- C4 (amended): once-listener removal happens only after the full delivery
pass — a single `emit(k, p1)` produces exactly one invocation per registered
listener, no sibling being skipped by a removal — and for a once-subscription
whose callback does not raise on `p1`, the sequence `emit(k, p1); emit(k, p2)`
on a fresh dispatcher invokes the callback exactly once, with `p1`.  (For a
throwing once-callback the second emission invokes it again — see
`c4_counterexample`.) -/
theorem c4_once_removal_after_full_pass (cr : CrashFn) (b : Bus) (k p1 p2 cb : Nat)
    (h : cr cb none p1 = false) :
    (EventBus.emit cr b k p1).2.length
        = ((EventBus.getListeners b k).getD []).length
    ∧ (EventBus.emit cr (EventBus.once [] k cb none) k p1).2 = [⟨cb, none, p1⟩]
    ∧ (EventBus.emit cr
          (EventBus.emit cr (EventBus.once [] k cb none) k p1).1 k p2).2 = [] := by
  have h0 : EventBus.once ([] : Bus) k cb none = [(k, [⟨cb, none, true⟩])] := rfl
  have hg : EventBus.getListeners [(k, [⟨cb, none, true⟩])] k
      = some [⟨cb, none, true⟩] :=
    EventBus.getListeners_cons_pos _ [] k (by simp)
  have hbus : (EventBus.emit cr [(k, [⟨cb, none, true⟩])] k p1).1 = [] := by
    rw [EventBus.emit_fst cr _ k p1 _ hg]
    have hfil : ([⟨cb, none, true⟩] : List Listener).filter (EventBus.survives cr p1)
        = [] := by
      simp [EventBus.survives, h]
    rw [hfil]
    simp [EventBus.deleteKey]
  have htr : (EventBus.emit cr [(k, [⟨cb, none, true⟩])] k p1).2
      = [⟨cb, none, p1⟩] := by
    rw [EventBus.emit_snd, hg]
    rfl
  refine ⟨?_, ?_, ?_⟩
  · rw [EventBus.emit_snd]
    exact List.length_map _ _
  · rw [h0]
    exact htr
  · rw [h0, hbus]
    rfl

/-- Witness for `c4_once_removal_after_full_pass` on a fresh dispatcher with a
non-throwing once-callback. -/
theorem c4_once_removal_after_full_pass_witness :
    (EventBus.emit (fun _ _ _ => false) ([] : Bus) 0 1).2.length
        = ((EventBus.getListeners ([] : Bus) 0).getD []).length
    ∧ (EventBus.emit (fun _ _ _ => false) (EventBus.once [] 0 0 none) 0 1).2
        = [⟨0, none, 1⟩]
    ∧ (EventBus.emit (fun _ _ _ => false)
          (EventBus.emit (fun _ _ _ => false) (EventBus.once [] 0 0 none) 0 1).1 0 2).2
        = [] :=
  c4_once_removal_after_full_pass (fun _ _ _ => false) [] 0 1 2 0 rfl

/-- C5, counterexample to the claim as stated: subscribe, invoke the returned
handle, re-subscribe the same (callback, context) pair, and invoke the handle
a second time — the second invocation removes the re-added record, so it does
change the registry. -/
theorem c5_counterexample :
    EventBus.unsubscribe
        (EventBus.«on» (EventBus.unsubscribe (EventBus.«on» [] 0 0 none) 0 0 none)
          0 0 none) 0 0 none
      ≠ EventBus.«on» (EventBus.unsubscribe (EventBus.«on» [] 0 0 none) 0 0 none)
          0 0 none := by
  decide

/-- C5 (amended): the unsubscribe handle is idempotent as a state transformer:
applying it twice in succession equals applying it once, so a repeated
invocation with no intervening re-registration of the same (callback, context)
pair is a no-op.  (If the pair is re-subscribed between two invocations, the
later invocation removes the new record — see `c5_counterexample`.) -/
theorem c5_unsubscribe_idempotent (b : Bus) (k cb : Nat) (ctx : Option Nat) :
    EventBus.unsubscribe (EventBus.unsubscribe b k cb ctx) k cb ctx
      = EventBus.unsubscribe b k cb ctx := by
  cases hg : EventBus.getListeners b k with
  | none =>
    have hid : EventBus.unsubscribe b k cb ctx = b := by
      unfold EventBus.unsubscribe
      rw [hg]
    rw [hid]
    exact hid
  | some ls =>
    rw [EventBus.unsubscribe_eq b k cb ctx ls hg]
    split <;> rename_i hemp
    · have hnone : EventBus.getListeners (EventBus.deleteKey b k) k = none :=
        EventBus.getListeners_deleteKey_self b k
      simp only [EventBus.unsubscribe, hnone]
    · have hg2 : EventBus.getListeners
          (EventBus.setListeners b k
            (ls.filter fun l => !(l.callback == cb && l.context == ctx))) k
          = some (ls.filter fun l => !(l.callback == cb && l.context == ctx)) :=
        EventBus.getListeners_setListeners_self b k ls _ hg
      rw [EventBus.unsubscribe_eq _ k cb ctx _ hg2]
      have hff : ((ls.filter fun l => !(l.callback == cb && l.context == ctx)).filter
            fun l => !(l.callback == cb && l.context == ctx))
          = ls.filter fun l => !(l.callback == cb && l.context == ctx) :=
        List.filter_eq_self.mpr fun l hl => (List.mem_filter.mp hl).2
      rw [hff, if_neg hemp]
      exact EventBus.setListeners_setListeners b k _ _

/-- C6: in every state reachable from a fresh dispatcher by any sequence of
subscribe / subscribeOnce / unsubscribe-handle / off / clear / emit
operations, every key present in the registry has a non-empty listener
collection, and `hasListeners k` holds exactly when `k` appears in
`eventNames()` — so a key whose last listener was removed is pruned. -/
theorem c6_no_empty_collections (cr : CrashFn) (ops : List EventBus.Op) (k : Nat) :
    (∀ q ∈ EventBus.run cr ops, q.2 ≠ [])
    ∧ (EventBus.hasListeners (EventBus.run cr ops) k = true
        ↔ k ∈ EventBus.eventNames (EventBus.run cr ops)) :=
  ⟨EventBus.wf_run cr ops,
    EventBus.hasListeners_iff_mem_eventNames _ k (EventBus.wf_run cr ops)⟩

/-- C7: `off(k)` with the callback omitted removes every listener under `k`
and removes `k` from the registry entirely; `off(k, cb)` with the context left
at its default (`none`, i.e. `null`) removes exactly the listeners under `k`
whose callback is `cb`, regardless of which context each was bound with. -/
theorem c7_off_all_and_off_by_callback (b : Bus) (k cb : Nat) (l : Listener) :
    k ∉ EventBus.eventNames (EventBus.off b k none none)
    ∧ (l ∈ (EventBus.getListeners (EventBus.off b k (some cb) none) k).getD []
        ↔ l ∈ (EventBus.getListeners b k).getD [] ∧ l.callback ≠ cb) := by
  constructor
  · cases hg : EventBus.getListeners b k with
    | none =>
      have hb : EventBus.off b k none none = b := by
        unfold EventBus.off
        rw [hg]
      rw [hb]
      exact (EventBus.getListeners_eq_none_iff b k).mp hg
    | some ls =>
      have hb : EventBus.off b k none none = EventBus.deleteKey b k := by
        unfold EventBus.off
        rw [hg]
      rw [hb]
      exact (EventBus.getListeners_eq_none_iff _ k).mp
        (EventBus.getListeners_deleteKey_self b k)
  · cases hg : EventBus.getListeners b k with
    | none =>
      have hb : EventBus.off b k (some cb) none = b := by
        unfold EventBus.off
        rw [hg]
      rw [hb, hg]
      simp
    | some ls =>
      rw [EventBus.mem_getD_off_some b k cb none ls hg l]
      simp

/-- C8: `off(k, cb, ctx)` with a specific context removes exactly the
listeners under `k` whose (callback, context) pair equals (`cb`, `ctx`); a
registration of the same callback under a different context stays in the
registry and is still invoked by a subsequent emit. -/
theorem c8_off_specific_context (cr : CrashFn) (b : Bus) (k cb c p : Nat)
    (l : Listener) (hl : l ∈ (EventBus.getListeners b k).getD [])
    (hcb : l.callback = cb) (hctx : l.context ≠ some c) :
    (∀ l2 : Listener,
        l2 ∈ (EventBus.getListeners (EventBus.off b k (some cb) (some c)) k).getD []
          ↔ l2 ∈ (EventBus.getListeners b k).getD []
            ∧ ¬(l2.callback = cb ∧ l2.context = some c))
    ∧ (⟨l.callback, l.context, p⟩ : Invocation)
        ∈ (EventBus.emit cr (EventBus.off b k (some cb) (some c)) k p).2 := by
  cases hg : EventBus.getListeners b k with
  | none =>
    rw [hg] at hl
    exact absurd hl (List.not_mem_nil l)
  | some ls =>
    rw [hg] at hl
    simp only [Option.getD_some] at hl
    have hmm : ∀ l2 : Listener,
        l2 ∈ (EventBus.getListeners (EventBus.off b k (some cb) (some c)) k).getD []
          ↔ l2 ∈ ls ∧ (!(l2.callback == cb
              && ((some c : Option Nat).isNone || l2.context == some c))) = true :=
      fun l2 => EventBus.mem_getD_off_some b k cb (some c) ls hg l2
    have hpred : (!(l.callback == cb
        && ((some c : Option Nat).isNone || l.context == some c))) = true := by
      simp [hcb, hctx]
    constructor
    · intro l2
      rw [hmm l2]
      simp
      tauto
    · have hlmem : l ∈ (EventBus.getListeners
          (EventBus.off b k (some cb) (some c)) k).getD [] :=
        (hmm l).mpr ⟨hl, hpred⟩
      rw [EventBus.emit_snd]
      exact List.mem_map_of_mem _ hlmem

/-- Witness for `c8_off_specific_context`: callback 3 registered under
contexts 1 and 2; `off(0, 3, ctx 1)` leaves the context-2 registration, which
a subsequent emit still invokes. -/
theorem c8_off_specific_context_witness :
    (∀ l2 : Listener,
        l2 ∈ (EventBus.getListeners
            (EventBus.off [(0, [⟨3, some 1, false⟩, ⟨3, some 2, false⟩])]
              0 (some 3) (some 1)) 0).getD []
          ↔ l2 ∈ (EventBus.getListeners
              [(0, [⟨3, some 1, false⟩, ⟨3, some 2, false⟩])] 0).getD []
            ∧ ¬(l2.callback = 3 ∧ l2.context = some 1))
    ∧ (⟨3, some 2, 9⟩ : Invocation)
        ∈ (EventBus.emit (fun _ _ _ => false)
            (EventBus.off [(0, [⟨3, some 1, false⟩, ⟨3, some 2, false⟩])]
              0 (some 3) (some 1)) 0 9).2 :=
  c8_off_specific_context (fun _ _ _ => false)
    [(0, [⟨3, some 1, false⟩, ⟨3, some 2, false⟩])] 0 3 1 9
    ⟨3, some 2, false⟩ (by decide) rfl (by decide)

/-- C9: in any reachable state, `emit` on a key with no listeners does not
raise, invokes no callback and leaves the registry unchanged, and `off` on an
unregistered key, or with a callback/context filter no listener matches, is a
silent no-op. -/
theorem c9_noop_cases (cr cr2 : CrashFn) (ops : List EventBus.Op)
    (k k2 p cb : Nat) (ctx ctx2 : Option Nat)
    (habs : EventBus.getListeners (EventBus.run cr ops) k = none)
    (hnomatch : ∀ l ∈ (EventBus.getListeners (EventBus.run cr ops) k2).getD [],
        ¬(l.callback = cb ∧ (ctx2 = none ∨ l.context = ctx2))) :
    EventBus.emit cr2 (EventBus.run cr ops) k p = (EventBus.run cr ops, [])
    ∧ EventBus.off (EventBus.run cr ops) k none ctx = EventBus.run cr ops
    ∧ EventBus.off (EventBus.run cr ops) k2 (some cb) ctx2 = EventBus.run cr ops := by
  refine ⟨?_, ?_, ?_⟩
  · unfold EventBus.emit
    rw [habs]
  · unfold EventBus.off
    rw [habs]
  · cases hg : EventBus.getListeners (EventBus.run cr ops) k2 with
    | none =>
      unfold EventBus.off
      rw [hg]
    | some ls =>
      rw [EventBus.off_some_eq _ k2 cb ctx2 ls hg]
      have hfl : ls.filter
          (fun l => !(l.callback == cb && (ctx2.isNone || l.context == ctx2))) = ls := by
        apply List.filter_eq_self.mpr
        intro l hl
        have hn := hnomatch l (by rw [hg]; simpa using hl)
        cases hc1 : l.callback == cb with
        | false => simp [hc1]
        | true =>
          have hcb : l.callback = cb := beq_iff_eq.mp hc1
          have hno : ctx2 ≠ none := fun hh => hn ⟨hcb, Or.inl hh⟩
          have hnc : l.context ≠ ctx2 := fun hh => hn ⟨hcb, Or.inr hh⟩
          simp [hc1, hno, hnc, Option.isSome_iff_ne_none]
      rw [hfl]
      have hls_ne : ls ≠ [] := by
        obtain ⟨q, hfind, hq2⟩ :
            ∃ q, ((EventBus.run cr ops).find? fun q => q.1 == k2) = some q
              ∧ q.2 = ls := by
          unfold EventBus.getListeners at hg
          cases hf : (EventBus.run cr ops).find? fun q => q.1 == k2 with
          | none => rw [hf] at hg; simp at hg
          | some q =>
            rw [hf] at hg
            exact ⟨q, rfl, Option.some_injective _ hg⟩
        have hwf := EventBus.wf_run cr ops q (List.mem_of_find?_eq_some hfind)
        rw [hq2] at hwf
        exact hwf
      rw [if_neg (by simpa [List.isEmpty_iff] using hls_ne)]
      exact EventBus.setListeners_eq_self _ k2 ls (EventBus.keysNodup_run cr ops) hg

/-- Witness for `c9_noop_cases`: reachable state with one listener on key 0;
key 1 is absent and callback 7 matches nothing on key 0. -/
theorem c9_noop_cases_witness :
    EventBus.emit (fun _ _ _ => false)
        (EventBus.run (fun _ _ _ => false) [EventBus.Op.«on» 0 5 none]) 1 3
      = (EventBus.run (fun _ _ _ => false) [EventBus.Op.«on» 0 5 none], [])
    ∧ EventBus.off (EventBus.run (fun _ _ _ => false) [EventBus.Op.«on» 0 5 none])
        1 none none
      = EventBus.run (fun _ _ _ => false) [EventBus.Op.«on» 0 5 none]
    ∧ EventBus.off (EventBus.run (fun _ _ _ => false) [EventBus.Op.«on» 0 5 none])
        0 (some 7) none
      = EventBus.run (fun _ _ _ => false) [EventBus.Op.«on» 0 5 none] :=
  c9_noop_cases (fun _ _ _ => false) (fun _ _ _ => false) [EventBus.Op.«on» 0 5 none]
    1 0 3 7 none none (by decide) (by decide)

/-- C10: subscribing twice with the identical (callback, context) pair creates
two distinct records — the listener count rises by 2 and the callback is
invoked twice more per emit — yet one invocation of the returned unsubscribe
handle removes every record under `k` matching the pair, both duplicates at
once. -/
theorem c10_duplicate_records (cr : CrashFn) (b : Bus) (k cb p : Nat)
    (ctx : Option Nat) :
    EventBus.listenerCount (EventBus.«on» (EventBus.«on» b k cb ctx) k cb ctx) k
        = EventBus.listenerCount b k + 2
    ∧ ((EventBus.emit cr (EventBus.«on» (EventBus.«on» b k cb ctx) k cb ctx) k p).2.countP
          fun inv => inv.callback == cb && inv.context == ctx)
        = ((EventBus.emit cr b k p).2.countP
            fun inv => inv.callback == cb && inv.context == ctx) + 2
    ∧ ∀ l ∈ (EventBus.getListeners
          (EventBus.unsubscribe
            (EventBus.«on» (EventBus.«on» b k cb ctx) k cb ctx) k cb ctx) k).getD [],
        ¬(l.callback = cb ∧ l.context = ctx) := by
  have h1 : EventBus.getListeners (EventBus.«on» b k cb ctx) k
      = some ((EventBus.getListeners b k).getD [] ++ [⟨cb, ctx, false⟩]) :=
    EventBus.getListeners_on b k cb ctx
  have h2 : EventBus.getListeners (EventBus.«on» (EventBus.«on» b k cb ctx) k cb ctx) k
      = some (((EventBus.getListeners b k).getD [] ++ [⟨cb, ctx, false⟩])
          ++ [⟨cb, ctx, false⟩]) := by
    rw [EventBus.getListeners_on _ k cb ctx, h1]
    rfl
  refine ⟨?_, ?_, ?_⟩
  · unfold EventBus.listenerCount
    rw [h2]
    cases hg : EventBus.getListeners b k with
    | none => simp
    | some ls => simp
  · rw [EventBus.emit_snd, EventBus.emit_snd, h2]
    simp
  · intro l hl
    have hchar := (EventBus.mem_getD_unsubscribe _ k cb ctx _ h2 l).mp hl
    have hpred := hchar.2
    rintro ⟨hc1, hc2⟩
    rw [hc1, hc2] at hpred
    simp at hpred
